import Mathlib

/-!
Verification of the OpenROAD `rsz` resizer core against its specification.

This file gives a shallow embedding, in Lean 4, of the parts of
`rsz/Resizer.cc` that the checked properties are about: the parasitics
invalidation tracking, the journal (transaction log) used for ECO rollback,
buffer removal, target-load driven cell sizing, the per-cell target-load
bisection search, and the worst-case gate-delay query.

Modelling conventions:
  * C++ `float`/`double` values (capacitances, slews, delays) are modelled
    as exact rationals `ℚ`; the checked properties are about control flow
    and selection logic, not floating-point rounding.
  * Pointers to instances, nets, pins, ports and cells are modelled as
    natural-number identifiers; a nullable pointer is an `Option`.
  * Negative infinity (the sentinel the delay query initializes with) is
    modelled by `none` in `Option ℚ`.
  * Containers (`std::set`, keyed maps, vectors) are `Finset ℕ`,
    association lists, and `List`.
-/

namespace Rsz

/-! ## Parasitics invalidation tracking

`Resizer::invalidateParasitics(pin, net)` guards the insertion of a net
into the `parasitics_invalid_` set: it does nothing when the net pointer is
null or when the liberty direction of the connected pin is a tristate
(tristate nets have multiple drivers, and invalidating on each resize would
be quadratic).  `Resizer::eraseParasitics(net)` removes a net from the set.
-/

/-- Modelled from the spec: the body of `Resizer::parasiticsInvalid(net)` is
not among the provided sources (only its call sites are).  The contract of the spec for the parasitics tracker says `invalidate(net)` marks the net in
the `invalid : Set<Net>` collection, and that this core only marks and
clears, never reads parasitic values.  We model it as insertion into the
invalid-net set. -/
def parasiticsInvalid (n : ℕ) (inv : Finset ℕ) : Finset ℕ :=
  insert n inv

/-- `Resizer::invalidateParasitics(pin, net)`: insert the net into the
invalid set unless the net is null or the liberty direction of the pin is a
tristate.  The pin itself only contributes its liberty direction, so the
model takes that direction (`isAnyTristate`) directly. -/
def invalidateParasitics (isAnyTristate : Bool) (net : Option ℕ)
    (inv : Finset ℕ) : Finset ℕ :=
  match net with
  | none => inv
  | some n => if isAnyTristate then inv else parasiticsInvalid n inv

/-- `Resizer::eraseParasitics(net)`: explicit removal from the invalid set. -/
def eraseParasitics (n : ℕ) (inv : Finset ℕ) : Finset ℕ :=
  inv.erase n

/-! ## The journal

While a transaction is open the resizer keeps one log per kind of edit:

  * `resizedInstMap`   — instance ↦ the liberty cell bound before its first
                          resize in this transaction (`resized_inst_map_`);
  * `insertedBuffers`  — buffers created (`inserted_buffers_`), together
                          with the per-transaction set `inserted_buffer_set_`;
  * `clonedGates`      — (original, clone) pairs (`cloned_gates_`), with
                          the set `cloned_inst_set_`;
  * `swappedPins`      — instance ↦ swapped port pair (`swapped_pins_`);
  * `removedBufferMap` — buffer name ↦ restoration record
                          (`removed_buffer_map_`); the payload of the record
                          (driver pin, load pins, location, cell) is opaque
                          to the properties checked here and is a number.

Instances, cells and ports are numbers; maps are association lists.
-/

structure Journal where
  resizedInstMap : List (ℕ × ℕ)
  insertedBuffers : List ℕ
  insertedBufferSet : List ℕ
  clonedGates : List (ℕ × ℕ)
  clonedInstSet : List ℕ
  swappedPins : List (ℕ × ℕ × ℕ)
  removedBufferMap : List (ℕ × ℕ)
  deriving Repr, DecidableEq

/-- The journal with every per-kind log cleared, as `journalBegin()` and
`journalEnd()` leave it. -/
def Journal.cleared : Journal :=
  ⟨[], [], [], [], [], [], []⟩

/-- The external operation counters that `journalRestore` decrements
(passed to it by reference in the C++ code). -/
structure OpCounts where
  resize_count : ℤ
  inserted_buffer_count : ℤ
  cloned_gate_count : ℤ
  swap_pin_count : ℤ
  removed_buffer_count : ℤ
  deriving Repr, DecidableEq

/-- `Resizer::journalRestore(...)` (counter / log bookkeeping).

The structural netlist rollback is performed by the own
`undoEco` of the database; what this model captures is the part the claims are about: when
the underlying ECO checkpoint recorded no edits (`ecoEmpty`), the function
closes the checkpoint and returns before touching any log or counter;
otherwise, after the structural undo, it decrements each external counter
by the size of the matching per-kind log and clears every log (including
the companion sets `inserted_buffer_set_` and `cloned_inst_set_`). -/
def journalRestore (ecoEmpty : Bool) (j : Journal) (c : OpCounts) :
    Journal × OpCounts :=
  if ecoEmpty then
    (j, c)
  else
    (Journal.cleared,
     { resize_count := c.resize_count - j.resizedInstMap.length
       inserted_buffer_count :=
         c.inserted_buffer_count - j.insertedBuffers.length
       cloned_gate_count := c.cloned_gate_count - j.clonedGates.length
       swap_pin_count := c.swap_pin_count - j.swappedPins.length
       removed_buffer_count :=
         c.removed_buffer_count - j.removedBufferMap.length })

/-! ## Journalling a resize: first write wins

`Resizer::journalInstReplaceCellBefore(inst)` records the cell currently
bound to `inst` in `resized_inst_map_`, but only when the map has no entry
for `inst` yet ("Do not clobber an existing checkpoint cell").  A
transaction is a sequence of resize events; each `replaceCell` with
journalling first records through `journalInstReplaceCellBefore` and then
rebinds the cell of the instance.
-/

/-- Does the resize log already hold an entry for instance `i`?
(`resized_inst_map_.hasKey(inst)`). -/
def jHasKey (m : List (ℕ × ℕ)) (i : ℕ) : Bool :=
  m.any (fun p => p.1 = i)

/-- `Resizer::journalInstReplaceCellBefore(inst)`: record the currently
bound cell `binding i` for `i`, unless an entry already exists. -/
def journalInstReplaceCellBefore (binding : ℕ → ℕ) (m : List (ℕ × ℕ))
    (i : ℕ) : List (ℕ × ℕ) :=
  if jHasKey m i then m else (i, binding i) :: m

/-- The state of one open transaction: the current cell binding of every
instance, and the resize log. -/
structure TxState where
  binding : ℕ → ℕ
  resizedMap : List (ℕ × ℕ)

/-- One journalled resize event `(inst, newCell)`: `replaceCell` first
journals the pre-state cell (`journalInstReplaceCellBefore` is called
before `sta_->replaceCell`), then rebinds the instance. -/
def resizeStep (s : TxState) (ev : ℕ × ℕ) : TxState :=
  { binding := fun j => if j = ev.1 then ev.2 else s.binding j
    resizedMap := journalInstReplaceCellBefore s.binding s.resizedMap ev.1 }

/-- Run a whole transaction: the resize log starts empty (`journalBegin`
clears it) and the events are applied in order. -/
def runTx (b0 : ℕ → ℕ) (evs : List (ℕ × ℕ)) : TxState :=
  evs.foldl resizeStep ⟨b0, []⟩

/-- Look up the recorded prior cell of instance `i`. -/
def jLookup (i : ℕ) (m : List (ℕ × ℕ)) : Option ℕ :=
  match m with
  | [] => none
  | p :: rest => if p.1 = i then some p.2 else jLookup i rest

/-! ### Helper lemmas for the journal -/

theorem jHasKey_eq_lookup_isSome (m : List (ℕ × ℕ)) (i : ℕ) :
    jHasKey m i = (jLookup i m).isSome := by
  induction m with
  | nil => rfl
  | cons p rest ih =>
    by_cases hp : p.1 = i
    · simp [jHasKey, jLookup, hp]
    · simp [jHasKey, jLookup, hp, List.any_cons] at ih ⊢
      exact ih

/-- A recorded entry survives the rest of the transaction: once
`jLookup i` is `some v`, every later resize keeps it. -/
theorem resize_log_persists (evs : List (ℕ × ℕ)) :
    ∀ (s : TxState) (i v : ℕ), jLookup i s.resizedMap = some v →
      jLookup i (evs.foldl resizeStep s).resizedMap = some v := by
  induction evs with
  | nil => intro s i v h; simpa using h
  | cons e rest ih =>
    intro s i v h
    have hstep : jLookup i (resizeStep s e).resizedMap = some v := by
      unfold resizeStep journalInstReplaceCellBefore
      by_cases hk : jHasKey s.resizedMap e.1
      · simpa [hk] using h
      · by_cases hei : e.1 = i
        · subst hei
          have : jHasKey s.resizedMap e.1 = true := by
            rw [jHasKey_eq_lookup_isSome, h]; rfl
          exact absurd this (by simp [hk])
        · simp [hk, jLookup, hei]
          exact h
    exact ih (resizeStep s e) i v hstep

/-- If instance `i` has not been resized yet (no log entry), later events
that target other instances keep both its binding and its absence from the
log. -/
theorem resize_log_untouched (e : ℕ × ℕ) (s : TxState) (i : ℕ)
    (hne : e.1 ≠ i) :
    (resizeStep s e).binding i = s.binding i ∧
      jLookup i (resizeStep s e).resizedMap = jLookup i s.resizedMap := by
  constructor
  · have hine : i ≠ e.1 := fun h => hne h.symm
    simp [resizeStep, hine]
  · unfold resizeStep journalInstReplaceCellBefore
    by_cases hk : jHasKey s.resizedMap e.1
    · simp [hk]
    · simp [hk, jLookup, hne]

/-- Core first-write-wins property, generalized over the starting state: if
the log has no entry for `i` yet, then after the remaining events the log
holds `some (s.binding i)` exactly when some event resizes `i`, and no
entry (with the binding of `i` intact) otherwise. -/
theorem runTx_first_wins (evs : List (ℕ × ℕ)) :
    ∀ (s : TxState) (i : ℕ), jLookup i s.resizedMap = none →
      (i ∈ evs.map Prod.fst →
        jLookup i (evs.foldl resizeStep s).resizedMap = some (s.binding i)) ∧
      (i ∉ evs.map Prod.fst →
        jLookup i (evs.foldl resizeStep s).resizedMap = none ∧
          (evs.foldl resizeStep s).binding i = s.binding i) := by
  induction evs with
  | nil =>
    intro s i h
    exact ⟨by simp, fun _ => ⟨h, rfl⟩⟩
  | cons e rest ih =>
    intro s i h
    by_cases hei : e.1 = i
    · constructor
      · intro _
        have hk : jHasKey s.resizedMap e.1 = false := by
          rw [jHasKey_eq_lookup_isSome, hei, h]; rfl
        rw [hei] at hk
        have hnew : jLookup i (resizeStep s e).resizedMap
            = some (s.binding i) := by
          unfold resizeStep journalInstReplaceCellBefore
          rw [hei]
          simp [hk, jLookup]
        simpa using resize_log_persists rest (resizeStep s e) i
          (s.binding i) hnew
      · intro hmem
        exact absurd
          (List.mem_map.mpr ⟨e, List.mem_cons_self e rest, hei⟩) hmem
    · have huntouched := resize_log_untouched e s i hei
      have hnone : jLookup i (resizeStep s e).resizedMap = none := by
        rw [huntouched.2]; exact h
      have := ih (resizeStep s e) i hnone
      constructor
      · intro hmem
        have hmem' : i ∈ rest.map Prod.fst := by
          rcases (by simpa using hmem) with h1 | h2
          · exact absurd h1.symm hei
          · simpa using h2
        simpa [huntouched.1] using this.1 hmem'
      · intro hmem
        have hmem' : i ∉ rest.map Prod.fst := fun hr =>
          hmem (by simp; exact Or.inr (by simpa using hr))
        have hres := this.2 hmem'
        exact ⟨by simpa using hres.1, by simpa [huntouched.1] using hres.2⟩

/-- Events that do not target `i` leave the binding of `i` unchanged. -/
theorem binding_before_first_resize (evs : List (ℕ × ℕ)) :
    ∀ (s : TxState) (i : ℕ),
      ((evs.takeWhile (fun e => e.1 != i)).foldl resizeStep s).binding i
        = s.binding i := by
  induction evs with
  | nil => intro s i; rfl
  | cons e rest ih =>
    intro s i
    by_cases hei : e.1 = i
    · simp [List.takeWhile_cons, hei]
    · have h1 : (fun e : ℕ × ℕ => e.1 != i) e = true := by simpa using hei
      rw [List.takeWhile_cons, if_pos h1]
      simp only [List.foldl_cons]
      rw [ih (resizeStep s e) i, (resize_log_untouched e s i hei).1]

/-! ## Claim theorems: journal and parasitics tracking -/

/-- C1: for every journal transaction, if the underlying ECO checkpoint
recorded no edits then `journalRestore` leaves every per-kind log and every
operation counter unchanged (it only closes the checkpoint); otherwise it
decrements `resize_count`, `inserted_buffer_count`, `cloned_gate_count`,
`swap_pin_count` and `removed_buffer_count` by exactly the number of
entries of the corresponding per-kind log, and clears every per-kind log
(the keyed resize log holds one entry per distinct resized instance, the
clone log one entry per clone pair, the removed-buffer map one record per
removed buffer). -/
theorem journalRestore_counts (j : Journal) (c : OpCounts) :
    journalRestore true j c = (j, c)
      ∧ (journalRestore false j c).1 = Journal.cleared
      ∧ (journalRestore false j c).2.resize_count
          = c.resize_count - j.resizedInstMap.length
      ∧ (journalRestore false j c).2.inserted_buffer_count
          = c.inserted_buffer_count - j.insertedBuffers.length
      ∧ (journalRestore false j c).2.cloned_gate_count
          = c.cloned_gate_count - j.clonedGates.length
      ∧ (journalRestore false j c).2.swap_pin_count
          = c.swap_pin_count - j.swappedPins.length
      ∧ (journalRestore false j c).2.removed_buffer_count
          = c.removed_buffer_count - j.removedBufferMap.length := by
  refine ⟨rfl, rfl, ?_, ?_, ?_, ?_, ?_⟩ <;> rfl

/-- C8: within one open transaction, the resize log records the prior cell
of an instance only on the first resize of that instance.  For any sequence
of journalled resize events starting from binding `b0`: if instance `i` is
resized at least once, the log ends holding `b0 i` — the cell bound before
the first resize of `i`, since the events before that first resize do not
touch the binding of `i` (third conjunct) — and later resizes never
overwrite it; if `i` is never resized, the log has no entry for it. -/
theorem resize_log_records_first_cell (b0 : ℕ → ℕ)
    (evs : List (ℕ × ℕ)) (i : ℕ) :
    (i ∈ evs.map Prod.fst →
        jLookup i (runTx b0 evs).resizedMap = some (b0 i))
      ∧ (i ∉ evs.map Prod.fst →
        jLookup i (runTx b0 evs).resizedMap = none)
      ∧ ((evs.takeWhile (fun e => e.1 != i)).foldl resizeStep
          ⟨b0, []⟩).binding i = b0 i := by
  have h := runTx_first_wins evs ⟨b0, []⟩ i rfl
  exact ⟨h.1, fun hm => (h.2 hm).1, binding_before_first_resize evs ⟨b0, []⟩ i⟩

/-- Witness for C8: instance 3 is resized twice (cell 7 → 10 → 20); the log
records 7, the original cell; instance 9 is never resized and has no
entry. -/
theorem resize_log_records_first_cell_witness :
    jLookup 3 (runTx (fun _ => 7) [(3, 10), (3, 20), (4, 5)]).resizedMap
        = some 7
      ∧ jLookup 9 (runTx (fun _ => 7) [(3, 10), (3, 20), (4, 5)]).resizedMap
        = none :=
  ⟨(resize_log_records_first_cell (fun _ => 7) [(3, 10), (3, 20), (4, 5)]
      3).1 (by decide),
   (resize_log_records_first_cell (fun _ => 7) [(3, 10), (3, 20), (4, 5)]
      9).2.1 (by decide)⟩

/-- C9: invalidating parasitics for a pin leaves the invalid-net set
unchanged when the net is null or the liberty direction of the pin is a
tristate; otherwise the net is inserted and the membership of no other
net changes. -/
theorem invalidateParasitics_frame (tri : Bool) (net : Option ℕ)
    (inv : Finset ℕ) :
    (net = none → invalidateParasitics tri net inv = inv)
      ∧ (tri = true → invalidateParasitics tri net inv = inv)
      ∧ (∀ n, net = some n → tri = false →
          n ∈ invalidateParasitics tri net inv
            ∧ ∀ m, m ≠ n →
              (m ∈ invalidateParasitics tri net inv ↔ m ∈ inv)) := by
  refine ⟨fun h => by simp [h, invalidateParasitics], ?_, ?_⟩
  · intro h
    cases net with
    | none => rfl
    | some n => simp [h, invalidateParasitics]
  · intro n hn ht
    subst hn; subst ht
    constructor
    · simp [invalidateParasitics, parasiticsInvalid]
    · intro m hm
      simp [invalidateParasitics, parasiticsInvalid, hm]

/-- Witness for C9: invalidating net 5 on a non-tristate pin adds 5 to the
set and keeps the membership of net 2. -/
theorem invalidateParasitics_frame_witness :
    5 ∈ invalidateParasitics false (some 5) ({2} : Finset ℕ)
      ∧ (2 ∈ invalidateParasitics false (some 5) ({2} : Finset ℕ)
          ↔ 2 ∈ ({2} : Finset ℕ)) :=
  ⟨((invalidateParasitics_frame false (some 5) {2}).2.2 5 rfl rfl).1,
   ((invalidateParasitics_frame false (some 5) {2}).2.2 5 rfl rfl).2 2
     (by decide)⟩

/-! ## Buffer removal

`Resizer::removeBuffer(buffer, honorDontTouchFixed, recordJournal)`
(with `Resizer::bufferBetweenPorts` and `Resizer::hasPort`).  The model
follows the source control flow line by line:

  1. reject when the liberty cell is missing or not a buffer;
  2. reject when both the input net and the output net have a top-level
     port (`bufferBetweenPorts`);
  3. instance dont-touch: reject when honored, else clear the flag;
  4. instance FIXED placement: reject when honored, else set PLACED;
  5. net dont-touch on either net: reject when honored, else clear both;
  6. pick `survivor`/`removed`: when the output net has a port the output
     net survives (the inner both-ports test mirrors the dead re-check in
     the source), else the input net survives;
  7. journal a restoration record when requested;
  8. if none of input pin, output pin, removed net and the instance is SDC
     constrained: merge the removed net into the survivor, disconnect both
     buffer pins, delete the instance and the removed net, drop the removed
     net from the parasitics-invalid set and mark the survivor invalid.

The trailing `updateParasitics()` batch flush hands the invalid set to the
external STA engine and is outside this model, which stops at the
invalid-set marking the claims are about.  Nets, pins and instances are
numbers; `pinNet` is the flat net of every pin (`mergeNet` rewires every
pin of the removed net onto the survivor).
-/

structure RBuf where
  buf : ℕ
  inPin : ℕ
  outPin : ℕ
  inNet : ℕ
  outNet : ℕ
  libExists : Bool
  libIsBuffer : Bool
  deriving Repr, DecidableEq

structure RBState where
  instAlive : Finset ℕ
  netAlive : Finset ℕ
  parasInvalid : Finset ℕ
  pinNet : ℕ → ℕ
  pinConnected : ℕ → Bool
  instDontTouch : ℕ → Bool
  instFixed : ℕ → Bool
  netDontTouch : ℕ → Bool
  netHasPort : ℕ → Bool
  sdcPin : ℕ → Bool
  sdcNet : ℕ → Bool
  sdcInst : ℕ → Bool
  removedBufferLog : List ℕ

/-- `Resizer::bufferBetweenPorts(buffer)`: both the input net of the buffer and
its output net carry a top-level port (`hasPort` reads the BTerms of the net;
the model keeps that as the `netHasPort` observation). -/
def bufferBetweenPorts (b : RBuf) (s : RBState) : Bool :=
  s.netHasPort b.inNet && s.netHasPort b.outNet

/-- The net that survives the removal: the output net when it has a
top-level port, else the input net. -/
def rbSurvivor (b : RBuf) (s : RBState) : ℕ :=
  if s.netHasPort b.outNet then b.outNet else b.inNet

/-- The net that is merged away and deleted: the counterpart of
`rbSurvivor`. -/
def rbRemoved (b : RBuf) (s : RBState) : ℕ :=
  if s.netHasPort b.outNet then b.inNet else b.outNet

/-- Step 3 of `removeBuffer` when not honoring constraints: remove the
instance dont-touch flag (`db_inst->setDoNotTouch(false)`). -/
def rbClearInstDT (b : RBuf) (s : RBState) : RBState :=
  if s.instDontTouch b.buf then
    { s with instDontTouch := fun i =>
        if i = b.buf then false else s.instDontTouch i }
  else s

/-- Step 4 of `removeBuffer` when not honoring constraints: change FIXED to
PLACED (`db_inst->setPlacementStatus(PLACED)`). -/
def rbClearFixed (b : RBuf) (s : RBState) : RBState :=
  if s.instFixed b.buf then
    { s with instFixed := fun i =>
        if i = b.buf then false else s.instFixed i }
  else s

/-- Step 5 of `removeBuffer` when not honoring constraints: remove the net
dont-touch flags of both nets for manual ECO. -/
def rbClearNetDT (b : RBuf) (s : RBState) : RBState :=
  if s.netDontTouch b.inNet || s.netDontTouch b.outNet then
    { s with netDontTouch := fun n =>
        if n = b.inNet || n = b.outNet then false else s.netDontTouch n }
  else s

/-- Step 7 of `removeBuffer`: `journalRemoveBuffer(buffer)` captures a
restoration record keyed by the buffer before any mutation.  (The guards
of `journalRemoveBuffer` — liberty cell present, a true buffer, pins and
nets non-null — hold at this call site: the cell checks passed in step 1
and pins and nets are total in this model.) -/
def rbRecordJournal (b : RBuf) (s : RBState) : RBState :=
  { s with removedBufferLog := b.buf :: s.removedBufferLog }

/-- Step 8 of `removeBuffer` when no SDC constraint blocks it: merge the
removed net into the survivor (`dbNet::mergeNet` rewires every pin of the
removed net), disconnect both buffer pins, delete the instance, delete the
removed net, drop the removed net from the parasitics-invalid set and mark
the survivor invalid. -/
def rbDoRemove (b : RBuf) (survivor removed : ℕ) (s : RBState) : RBState :=
  { s with
      pinNet := fun p =>
        if s.pinNet p = removed then survivor else s.pinNet p
      pinConnected := fun p =>
        if p = b.inPin || p = b.outPin then false else s.pinConnected p
      instAlive := s.instAlive.erase b.buf
      netAlive := s.netAlive.erase removed
      parasInvalid :=
        parasiticsInvalid survivor
          (eraseParasitics removed s.parasInvalid) }

/-- `Resizer::removeBuffer`. -/
def removeBuffer (b : RBuf) (honorDontTouchFixed recordJournal : Bool)
    (s : RBState) : Bool × RBState :=
  if !(b.libExists && b.libIsBuffer) then (false, s)
  else if bufferBetweenPorts b s then (false, s)
  else if s.instDontTouch b.buf && honorDontTouchFixed then (false, s)
  else
    let s1 := rbClearInstDT b s
    if s1.instFixed b.buf && honorDontTouchFixed then (false, s1)
    else
      let s2 := rbClearFixed b s1
      if (s2.netDontTouch b.inNet || s2.netDontTouch b.outNet)
          && honorDontTouchFixed then (false, s2)
      else
        let s3 := rbClearNetDT b s2
        if s3.netHasPort b.outNet && s3.netHasPort b.inNet then (false, s3)
        else
          let survivor := rbSurvivor b s3
          let removed := rbRemoved b s3
          let s4 := if recordJournal then rbRecordJournal b s3 else s3
          if !(s4.sdcPin b.inPin) && !(s4.sdcPin b.outPin)
              && !(s4.sdcNet removed) && !(s4.sdcInst b.buf) then
            (true, rbDoRemove b survivor removed s4)
          else (false, s4)

/-! Projection facts: each intermediate step of `removeBuffer` touches only
its own flag or log, leaving every other observation of the state intact.
These drive the later claim proofs. -/

@[simp] theorem rbClearInstDT_instFixed (b : RBuf) (s : RBState) :
    (rbClearInstDT b s).instFixed = s.instFixed := by
  unfold rbClearInstDT; split <;> rfl

@[simp] theorem rbClearInstDT_netDontTouch (b : RBuf) (s : RBState) :
    (rbClearInstDT b s).netDontTouch = s.netDontTouch := by
  unfold rbClearInstDT; split <;> rfl

@[simp] theorem rbClearInstDT_netHasPort (b : RBuf) (s : RBState) :
    (rbClearInstDT b s).netHasPort = s.netHasPort := by
  unfold rbClearInstDT; split <;> rfl

@[simp] theorem rbClearInstDT_sdcPin (b : RBuf) (s : RBState) :
    (rbClearInstDT b s).sdcPin = s.sdcPin := by
  unfold rbClearInstDT; split <;> rfl

@[simp] theorem rbClearInstDT_sdcNet (b : RBuf) (s : RBState) :
    (rbClearInstDT b s).sdcNet = s.sdcNet := by
  unfold rbClearInstDT; split <;> rfl

@[simp] theorem rbClearInstDT_sdcInst (b : RBuf) (s : RBState) :
    (rbClearInstDT b s).sdcInst = s.sdcInst := by
  unfold rbClearInstDT; split <;> rfl

@[simp] theorem rbClearInstDT_netAlive (b : RBuf) (s : RBState) :
    (rbClearInstDT b s).netAlive = s.netAlive := by
  unfold rbClearInstDT; split <;> rfl

@[simp] theorem rbClearInstDT_instAlive (b : RBuf) (s : RBState) :
    (rbClearInstDT b s).instAlive = s.instAlive := by
  unfold rbClearInstDT; split <;> rfl

@[simp] theorem rbClearInstDT_parasInvalid (b : RBuf) (s : RBState) :
    (rbClearInstDT b s).parasInvalid = s.parasInvalid := by
  unfold rbClearInstDT; split <;> rfl

@[simp] theorem rbClearInstDT_pinNet (b : RBuf) (s : RBState) :
    (rbClearInstDT b s).pinNet = s.pinNet := by
  unfold rbClearInstDT; split <;> rfl

@[simp] theorem rbClearInstDT_pinConnected (b : RBuf) (s : RBState) :
    (rbClearInstDT b s).pinConnected = s.pinConnected := by
  unfold rbClearInstDT; split <;> rfl

@[simp] theorem rbClearFixed_netDontTouch (b : RBuf) (s : RBState) :
    (rbClearFixed b s).netDontTouch = s.netDontTouch := by
  unfold rbClearFixed; split <;> rfl

@[simp] theorem rbClearFixed_netHasPort (b : RBuf) (s : RBState) :
    (rbClearFixed b s).netHasPort = s.netHasPort := by
  unfold rbClearFixed; split <;> rfl

@[simp] theorem rbClearFixed_sdcPin (b : RBuf) (s : RBState) :
    (rbClearFixed b s).sdcPin = s.sdcPin := by
  unfold rbClearFixed; split <;> rfl

@[simp] theorem rbClearFixed_sdcNet (b : RBuf) (s : RBState) :
    (rbClearFixed b s).sdcNet = s.sdcNet := by
  unfold rbClearFixed; split <;> rfl

@[simp] theorem rbClearFixed_sdcInst (b : RBuf) (s : RBState) :
    (rbClearFixed b s).sdcInst = s.sdcInst := by
  unfold rbClearFixed; split <;> rfl

@[simp] theorem rbClearFixed_netAlive (b : RBuf) (s : RBState) :
    (rbClearFixed b s).netAlive = s.netAlive := by
  unfold rbClearFixed; split <;> rfl

@[simp] theorem rbClearFixed_instAlive (b : RBuf) (s : RBState) :
    (rbClearFixed b s).instAlive = s.instAlive := by
  unfold rbClearFixed; split <;> rfl

@[simp] theorem rbClearFixed_parasInvalid (b : RBuf) (s : RBState) :
    (rbClearFixed b s).parasInvalid = s.parasInvalid := by
  unfold rbClearFixed; split <;> rfl

@[simp] theorem rbClearFixed_pinNet (b : RBuf) (s : RBState) :
    (rbClearFixed b s).pinNet = s.pinNet := by
  unfold rbClearFixed; split <;> rfl

@[simp] theorem rbClearFixed_pinConnected (b : RBuf) (s : RBState) :
    (rbClearFixed b s).pinConnected = s.pinConnected := by
  unfold rbClearFixed; split <;> rfl

@[simp] theorem rbClearNetDT_netHasPort (b : RBuf) (s : RBState) :
    (rbClearNetDT b s).netHasPort = s.netHasPort := by
  unfold rbClearNetDT; split <;> rfl

@[simp] theorem rbClearNetDT_sdcPin (b : RBuf) (s : RBState) :
    (rbClearNetDT b s).sdcPin = s.sdcPin := by
  unfold rbClearNetDT; split <;> rfl

@[simp] theorem rbClearNetDT_sdcNet (b : RBuf) (s : RBState) :
    (rbClearNetDT b s).sdcNet = s.sdcNet := by
  unfold rbClearNetDT; split <;> rfl

@[simp] theorem rbClearNetDT_sdcInst (b : RBuf) (s : RBState) :
    (rbClearNetDT b s).sdcInst = s.sdcInst := by
  unfold rbClearNetDT; split <;> rfl

@[simp] theorem rbClearNetDT_netAlive (b : RBuf) (s : RBState) :
    (rbClearNetDT b s).netAlive = s.netAlive := by
  unfold rbClearNetDT; split <;> rfl

@[simp] theorem rbClearNetDT_instAlive (b : RBuf) (s : RBState) :
    (rbClearNetDT b s).instAlive = s.instAlive := by
  unfold rbClearNetDT; split <;> rfl

@[simp] theorem rbClearNetDT_parasInvalid (b : RBuf) (s : RBState) :
    (rbClearNetDT b s).parasInvalid = s.parasInvalid := by
  unfold rbClearNetDT; split <;> rfl

@[simp] theorem rbClearNetDT_pinNet (b : RBuf) (s : RBState) :
    (rbClearNetDT b s).pinNet = s.pinNet := by
  unfold rbClearNetDT; split <;> rfl

@[simp] theorem rbClearNetDT_pinConnected (b : RBuf) (s : RBState) :
    (rbClearNetDT b s).pinConnected = s.pinConnected := by
  unfold rbClearNetDT; split <;> rfl

@[simp] theorem rbRecordJournal_netHasPort (b : RBuf) (s : RBState) :
    (rbRecordJournal b s).netHasPort = s.netHasPort := rfl

@[simp] theorem rbRecordJournal_sdcPin (b : RBuf) (s : RBState) :
    (rbRecordJournal b s).sdcPin = s.sdcPin := rfl

@[simp] theorem rbRecordJournal_sdcNet (b : RBuf) (s : RBState) :
    (rbRecordJournal b s).sdcNet = s.sdcNet := rfl

@[simp] theorem rbRecordJournal_sdcInst (b : RBuf) (s : RBState) :
    (rbRecordJournal b s).sdcInst = s.sdcInst := rfl

@[simp] theorem rbRecordJournal_netAlive (b : RBuf) (s : RBState) :
    (rbRecordJournal b s).netAlive = s.netAlive := rfl

@[simp] theorem rbRecordJournal_instAlive (b : RBuf) (s : RBState) :
    (rbRecordJournal b s).instAlive = s.instAlive := rfl

@[simp] theorem rbRecordJournal_parasInvalid (b : RBuf) (s : RBState) :
    (rbRecordJournal b s).parasInvalid = s.parasInvalid := rfl

@[simp] theorem rbRecordJournal_pinNet (b : RBuf) (s : RBState) :
    (rbRecordJournal b s).pinNet = s.pinNet := rfl

@[simp] theorem rbRecordJournal_pinConnected (b : RBuf) (s : RBState) :
    (rbRecordJournal b s).pinConnected = s.pinConnected := rfl


/-! ## Claim theorems: buffer removal -/

/-- A buffer driven through net 10 onto net 11, where only the output net
has a top-level port; no dont-touch, fixed or SDC constraint anywhere. -/
def rbufOutPort : RBuf :=
  ⟨0, 1, 2, 10, 11, true, true⟩

/-- State for `rbufOutPort`: output net 11 has a port, input net 10 does
not. -/
def rbStateOutPort : RBState where
  instAlive := {0}
  netAlive := {10, 11}
  parasInvalid := ∅
  pinNet := fun p => if p = 1 then 10 else 11
  pinConnected := fun _ => true
  instDontTouch := fun _ => false
  instFixed := fun _ => false
  netDontTouch := fun _ => false
  netHasPort := fun n => n == 11
  sdcPin := fun _ => false
  sdcNet := fun _ => false
  sdcInst := fun _ => false
  removedBufferLog := []

/-- Counterexample to C2: a buffer whose output net has a top-level port
while its input net has none is removed (returns `true`), so the
`bufferBetweenPorts` check does not reject every buffer whose output net
carries a port — it rejects only buffers between two ports.  The code even
prefers the ported output net as the survivor. -/
theorem removeBuffer_outPort_not_rejected :
    rbStateOutPort.netHasPort rbufOutPort.outNet = true
      ∧ (removeBuffer rbufOutPort false false rbStateOutPort).1 = true := by
  decide

/-- C2 (amended): a buffer sitting between two top-level ports — both its
input net and its output net carry a port — is rejected by the
`bufferBetweenPorts` check, whatever `honorDontTouchFixed` and
`recordJournal` are. -/
theorem removeBuffer_between_ports_rejected (b : RBuf)
    (honor record : Bool) (s : RBState)
    (h1 : s.netHasPort b.inNet = true) (h2 : s.netHasPort b.outNet = true) :
    (removeBuffer b honor record s).1 = false := by
  unfold removeBuffer
  by_cases hlib : (b.libExists && b.libIsBuffer) = true
  · simp [hlib, bufferBetweenPorts, h1, h2]
  · simp [hlib]

/-- Like `rbStateOutPort`, but the input net 10 has a port as well: a
feedthrough buffer between two top-level ports. -/
def rbStateBothPorts : RBState :=
  { rbStateOutPort with netHasPort := fun n => n == 10 || n == 11 }

/-- Witness for C2 (amended): a concrete buffer between two ports is
rejected with `honorDontTouchFixed = false`. -/
theorem removeBuffer_between_ports_rejected_witness :
    rbStateBothPorts.netHasPort rbufOutPort.inNet = true
      ∧ rbStateBothPorts.netHasPort rbufOutPort.outNet = true
      ∧ (removeBuffer rbufOutPort false false rbStateBothPorts).1 = false :=
  ⟨by decide, by decide,
   removeBuffer_between_ports_rejected rbufOutPort false false
     rbStateBothPorts (by decide) (by decide)⟩

/-- C5: whenever `removeBuffer` actually removes the buffer (returns
`true`), the two nets are merged into the single surviving net
`rbSurvivor` — the output net when it carries a top-level port, else the
input net — every pin of the removed net is rewired onto the survivor, the
removed net and the buffer instance are deleted, the removed net is
dropped from the parasitics-invalid set and the survivor is marked
invalid. -/
theorem removeBuffer_merges_into_survivor (b : RBuf)
    (honor record : Bool) (s : RBState)
    (h : (removeBuffer b honor record s).1 = true) :
    (removeBuffer b honor record s).2.netAlive
        = s.netAlive.erase (rbRemoved b s)
      ∧ (removeBuffer b honor record s).2.instAlive
        = s.instAlive.erase b.buf
      ∧ (removeBuffer b honor record s).2.parasInvalid
        = parasiticsInvalid (rbSurvivor b s)
            (eraseParasitics (rbRemoved b s) s.parasInvalid)
      ∧ (removeBuffer b honor record s).2.pinNet
        = (fun p => if s.pinNet p = rbRemoved b s then rbSurvivor b s
            else s.pinNet p)
      ∧ rbSurvivor b s
        = (if s.netHasPort b.outNet then b.outNet else b.inNet) := by
  simp only [removeBuffer] at h ⊢
  split_ifs at h ⊢ <;>
    simp_all [rbDoRemove, rbSurvivor, rbRemoved]

/-- Witness for C5: removing the concrete feedthrough buffer keeps the
ported output net 11 and erases the input net 10 and the instance. -/
theorem removeBuffer_merges_into_survivor_witness :
    (removeBuffer rbufOutPort false false rbStateOutPort).1 = true
      ∧ (removeBuffer rbufOutPort false false rbStateOutPort).2.netAlive
        = rbStateOutPort.netAlive.erase (rbRemoved rbufOutPort rbStateOutPort)
      ∧ (removeBuffer rbufOutPort false false rbStateOutPort).2.instAlive
        = rbStateOutPort.instAlive.erase rbufOutPort.buf :=
  ⟨by decide,
   (removeBuffer_merges_into_survivor rbufOutPort false false rbStateOutPort
     (by decide)).1,
   (removeBuffer_merges_into_survivor rbufOutPort false false rbStateOutPort
     (by decide)).2.1⟩

/-- C10: a buffer that passes the buffer-cell, port-boundary, dont-touch
and fixed-placement checks but has an SDC constraint on its input pin, its
output pin, the to-be-removed net, or the instance itself is not removed:
`removeBuffer` returns `false` and leaves the netlist untouched — no net
merge (`pinNet`), no pin disconnect (`pinConnected`), no instance or net
deletion, and no parasitics-invalid change. -/
theorem removeBuffer_sdc_blocks_mutation (b : RBuf)
    (honor record : Bool) (s : RBState)
    (hlib : (b.libExists && b.libIsBuffer) = true)
    (hports : (s.netHasPort b.inNet && s.netHasPort b.outNet) = false)
    (hdt : (s.instDontTouch b.buf && honor) = false)
    (hfx : (s.instFixed b.buf && honor) = false)
    (hndt : ((s.netDontTouch b.inNet || s.netDontTouch b.outNet) && honor)
      = false)
    (hsdc : s.sdcPin b.inPin = true ∨ s.sdcPin b.outPin = true
      ∨ s.sdcNet (rbRemoved b s) = true ∨ s.sdcInst b.buf = true) :
    (removeBuffer b honor record s).1 = false
      ∧ (removeBuffer b honor record s).2.netAlive = s.netAlive
      ∧ (removeBuffer b honor record s).2.instAlive = s.instAlive
      ∧ (removeBuffer b honor record s).2.pinNet = s.pinNet
      ∧ (removeBuffer b honor record s).2.pinConnected = s.pinConnected
      ∧ (removeBuffer b honor record s).2.parasInvalid = s.parasInvalid := by
  simp only [removeBuffer, bufferBetweenPorts] at *
  split_ifs <;> simp_all [rbRemoved]

/-- State for the SDC-blocked removal: like `rbStateOutPort` but the
instance itself carries an SDC constraint. -/
def rbStateSdc : RBState :=
  { rbStateOutPort with sdcInst := fun i => i == 0 }

/-- Witness for C10: the concrete buffer passes every structural check but
its instance is SDC constrained, so nothing is removed. -/
theorem removeBuffer_sdc_blocks_mutation_witness :
    (removeBuffer rbufOutPort false true rbStateSdc).1 = false
      ∧ (removeBuffer rbufOutPort false true rbStateSdc).2.netAlive
        = rbStateSdc.netAlive
      ∧ (removeBuffer rbufOutPort false true rbStateSdc).2.instAlive
        = rbStateSdc.instAlive :=
  ⟨(removeBuffer_sdc_blocks_mutation rbufOutPort false true rbStateSdc
      (by decide) (by decide) (by decide) (by decide) (by decide)
      (Or.inr (Or.inr (Or.inr (by decide))))).1,
   (removeBuffer_sdc_blocks_mutation rbufOutPort false true rbStateSdc
      (by decide) (by decide) (by decide) (by decide) (by decide)
      (Or.inr (Or.inr (Or.inr (by decide))))).2.1,
   (removeBuffer_sdc_blocks_mutation rbufOutPort false true rbStateSdc
      (by decide) (by decide) (by decide) (by decide) (by decide)
      (Or.inr (Or.inr (Or.inr (by decide))))).2.2.1⟩

/-! ## Target-load driven sizing

`Resizer::findTargetCell(cell, load_cap, revisiting_inst)` walks the
swappable cells (the output of `getSwappableCells`, passed in here as a
list) keeping the best candidate seen so far.  A liberty cell is modelled
by the observations the walk makes of it: identity, buffer/inverter
class, dont-use flag, link-library membership, and its entry in the
target-load map.  `bufferDelay(cell, load_cap, tgt_slew_dcalc_ap_)` is an
oracle function of the cell and the load.
-/

structure LCell where
  cid : ℕ
  isBuffer : Bool
  isInverter : Bool
  dontUse : Bool
  isLink : Bool
  targetLoad : ℚ
  deriving Repr, DecidableEq

/-- `targetLoadDist(load_cap, target_load)` — the static helper. -/
def targetLoadDist (load_cap target_load : ℚ) : ℚ :=
  |load_cap - target_load|

/-- The running best of the `findTargetCell` loop: cell, its target-load
distance, its target load and (for buffers/inverters) its delay. -/
structure FTCState where
  best_cell : LCell
  best_dist : ℚ
  best_load : ℚ
  best_delay : ℚ
  deriving Repr, DecidableEq

/-- One iteration of the `findTargetCell` loop over a swappable candidate:
skip dont-use and non-link cells; otherwise accept the candidate when

  * buffer/inverter: it has lower delay and its distance is within 10%
    of the best, or it has lower distance and its delay is within 10% of
    the best (the near-tie break against slower "delay" variants);
  * other cells: strictly lower distance, and on a revisit of a
    multi-output instance only when it is an upsize
    (`target_load > best_load`). -/
def ftcStep (bufferDelay : LCell → ℚ → ℚ) (load_cap : ℚ)
    (is_buf_inv revisiting_inst : Bool) (st : FTCState) (c : LCell) :
    FTCState :=
  if !c.dontUse && c.isLink then
    let target_load := c.targetLoad
    let delay := if is_buf_inv then bufferDelay c load_cap else 0
    let dist := targetLoadDist load_cap target_load
    if (if is_buf_inv then
          (delay < st.best_delay ∧ dist < st.best_dist * (11/10))
            ∨ (dist < st.best_dist ∧ delay < st.best_delay * (11/10))
        else
          dist < st.best_dist
            ∧ (!revisiting_inst = true ∨ st.best_load < target_load))
    then ⟨c, dist, target_load, delay⟩
    else st
  else st

/-- `Resizer::findTargetCell(cell, load_cap, revisiting_inst)`: the best
starts as the current cell with its own target load, distance and (for
buffers/inverters) delay, then the loop runs over the swappable cells. -/
def findTargetCell (bufferDelay : LCell → ℚ → ℚ) (cell : LCell)
    (swappable : List LCell) (load_cap : ℚ) (revisiting_inst : Bool) :
    LCell :=
  let is_buf_inv := cell.isBuffer || cell.isInverter
  let target_load := cell.targetLoad
  let st0 : FTCState :=
    ⟨cell, targetLoadDist load_cap target_load, target_load,
     if is_buf_inv then bufferDelay cell load_cap else 0⟩
  (swappable.foldl (ftcStep bufferDelay load_cap is_buf_inv revisiting_inst)
    st0).best_cell

/-- A swappable candidate the loop does not skip. -/
def ftcEligible (c : LCell) : Prop :=
  c.dontUse = false ∧ c.isLink = true

/-- Loop invariant of the `findTargetCell` walk for a cell that is neither
a buffer nor an inverter, on a first visit: the tracked distance is the
distance of the tracked cell, it never increases, it ends at most the
distance of every eligible candidate, and the tracked cell is the starting
cell or an eligible candidate from the list. -/
theorem ftc_fold_min (bd : LCell → ℚ → ℚ) (load : ℚ) (sw : List LCell) :
    ∀ st : FTCState,
      st.best_dist = targetLoadDist load st.best_cell.targetLoad →
      ((sw.foldl (ftcStep bd load false false) st).best_dist
          = targetLoadDist load
            (sw.foldl (ftcStep bd load false false) st).best_cell.targetLoad)
        ∧ (sw.foldl (ftcStep bd load false false) st).best_dist
            ≤ st.best_dist
        ∧ (∀ c ∈ sw, ftcEligible c →
            (sw.foldl (ftcStep bd load false false) st).best_dist
              ≤ targetLoadDist load c.targetLoad)
        ∧ ((sw.foldl (ftcStep bd load false false) st).best_cell
              = st.best_cell
            ∨ ((sw.foldl (ftcStep bd load false false) st).best_cell ∈ sw
                ∧ ftcEligible
                  (sw.foldl (ftcStep bd load false false) st).best_cell)) := by
  induction sw with
  | nil =>
    intro st h
    exact ⟨h, le_refl _, by simp, Or.inl rfl⟩
  | cons c rest ih =>
    intro st h
    simp only [List.foldl_cons]
    by_cases helig : (!c.dontUse && c.isLink) = true
    · by_cases hacc : targetLoadDist load c.targetLoad < st.best_dist
      · have hstep : ftcStep bd load false false st c
            = ⟨c, targetLoadDist load c.targetLoad, c.targetLoad, 0⟩ := by
          simp [ftcStep, helig, hacc]
        rw [hstep]
        have ih' := ih ⟨c, targetLoadDist load c.targetLoad, c.targetLoad, 0⟩
          rfl
        refine ⟨ih'.1, le_trans ih'.2.1 (le_of_lt hacc), ?_, ?_⟩
        · intro d hd he
          rcases List.mem_cons.mp hd with hdc | hd'
          · subst hdc
            exact ih'.2.1
          · exact ih'.2.2.1 d hd' he
        · have heligp : ftcEligible c := by
            simp [ftcEligible]
            constructor
            · by_cases hdu : c.dontUse = true
              · simp [hdu] at helig
              · simpa using hdu
            · by_cases hlk : c.isLink = true
              · exact hlk
              · simp [Bool.not_eq_true] at hlk
                simp [hlk] at helig
          rcases ih'.2.2.2 with h1 | h2
          · exact Or.inr ⟨by simp [h1], by rw [h1]; exact heligp⟩
          · exact Or.inr ⟨List.mem_cons_of_mem c h2.1, h2.2⟩
      · have hstep : ftcStep bd load false false st c = st := by
          simp [ftcStep, helig, hacc]
        rw [hstep]
        have ih' := ih st h
        refine ⟨ih'.1, ih'.2.1, ?_, ?_⟩
        · intro d hd he
          rcases List.mem_cons.mp hd with hdc | hd'
          · subst hdc
            exact le_trans ih'.2.1 (not_lt.mp hacc)
          · exact ih'.2.2.1 d hd' he
        · rcases ih'.2.2.2 with h1 | h2
          · exact Or.inl h1
          · exact Or.inr ⟨List.mem_cons_of_mem c h2.1, h2.2⟩
    · have hstep : ftcStep bd load false false st c = st := by
        simp [ftcStep, helig]
      rw [hstep]
      have ih' := ih st h
      refine ⟨ih'.1, ih'.2.1, ?_, ?_⟩
      · intro d hd he
        rcases List.mem_cons.mp hd with hdc | hd'
        · subst hdc
          exact absurd (by simp [he.1, he.2] : (!d.dontUse && d.isLink) = true)
            helig
        · exact ih'.2.2.1 d hd' he
      · rcases ih'.2.2.2 with h1 | h2
        · exact Or.inl h1
        · exact Or.inr ⟨List.mem_cons_of_mem c h2.1, h2.2⟩

/-- Three equivalent buffer cells with target loads 2 fF, 5 fF and 9 fF
(in farads), and a delay table decreasing with drive strength, for the
concrete sizing scenario of the spec. -/
def bufT2 : LCell := ⟨2, true, false, false, true, 2/10^15⟩

/-- The 5 fF cell of the concrete sizing scenario. -/
def bufT5 : LCell := ⟨5, true, false, false, true, 5/10^15⟩

/-- The 9 fF cell of the concrete sizing scenario. -/
def bufT9 : LCell := ⟨9, true, false, false, true, 9/10^15⟩

/-- Delay table for the concrete sizing scenario: larger buffers drive the
common load faster, and no two delays are within the tie-break band in a
way that would override the load match. -/
def bufTDelay : LCell → ℚ → ℚ :=
  fun c _ => if c.cid = 2 then 30 else if c.cid = 5 then 20 else 15

/-- C3: the sizing search returns either the current cell or an eligible
(not dont-use, link-library) swappable candidate, and for a cell that is
not a buffer/inverter on a first visit it minimizes
`|candidate target-load - current load|` over the current cell and every
eligible candidate.  In the concrete 3-cell buffer scenario with target
loads 2 fF / 5 fF / 9 fF, computed load 5.4 fF and no near-tie
(the distance gap exceeds 10%), the 5 fF cell is selected. -/
theorem findTargetCell_nearest_target_load (bd : LCell → ℚ → ℚ)
    (cell : LCell) (sw : List LCell) (load : ℚ)
    (hb : cell.isBuffer = false) (hi : cell.isInverter = false) :
    (findTargetCell bd cell sw load false = cell
        ∨ (findTargetCell bd cell sw load false ∈ sw
            ∧ ftcEligible (findTargetCell bd cell sw load false)))
      ∧ targetLoadDist load (findTargetCell bd cell sw load false).targetLoad
          ≤ targetLoadDist load cell.targetLoad
      ∧ (∀ c ∈ sw, ftcEligible c →
          targetLoadDist load (findTargetCell bd cell sw load false).targetLoad
            ≤ targetLoadDist load c.targetLoad)
      ∧ findTargetCell bufTDelay bufT2 [bufT2, bufT5, bufT9] (54/10^16) false
          = bufT5 := by
  have hbi : (cell.isBuffer || cell.isInverter) = false := by simp [hb, hi]
  have hmin := ftc_fold_min bd load sw
    ⟨cell, targetLoadDist load cell.targetLoad, cell.targetLoad, 0⟩ rfl
  have hgoal : findTargetCell bd cell sw load false
      = (sw.foldl (ftcStep bd load false false)
        ⟨cell, targetLoadDist load cell.targetLoad, cell.targetLoad,
         0⟩).best_cell := by
    simp [findTargetCell, hbi]
  refine ⟨?_, ?_, ?_, ?_⟩
  · rw [hgoal]
    exact hmin.2.2.2
  · rw [hgoal, ← hmin.1]
    exact hmin.2.1
  · intro c hc he
    rw [hgoal, ← hmin.1]
    exact hmin.2.2.1 c hc he
  · norm_num [findTargetCell, ftcStep, targetLoadDist, bufT2, bufT5, bufT9,
      bufTDelay, abs]

/-- A plain (non-buffer) logic cell with target load 2, for the C3
witness. -/
def andT2 : LCell := ⟨0, false, false, false, true, 2⟩

/-- An eligible equivalent of `andT2` with target load 5. -/
def andT5 : LCell := ⟨1, false, false, false, true, 5⟩

/-- Witness for C3: with load 6, the search starting from the
target-load-2 cell does not end farther from the load than that cell. -/
theorem findTargetCell_nearest_target_load_witness :
    targetLoadDist 6
        (findTargetCell (fun _ _ => 0) andT2 [andT5] 6 false).targetLoad
      ≤ targetLoadDist 6 andT2.targetLoad :=
  (findTargetCell_nearest_target_load (fun _ _ => 0) andT2 [andT5] 6
    rfl rfl).2.1

/-! ## `resizeToTargetSlew`

`Resizer::resizeToTargetSlew(drvr_pin)` is modelled over the observations
it makes: the eligibility tests on the driven instance, the load
capacitance returned by the delay calculator, whether the instance has
multiple driven outputs and was already visited
(`resized_multi_output_insts_`), and whether `replaceCell` can find a
physical master for the chosen cell (its success condition).  `visited`
is the membership of the instance in `resized_multi_output_insts_`; the
returned pair is (return value, membership afterwards).
-/

structure RTSEnv where
  isTopLevelPort : Bool
  instDontTouch : Bool
  hasLibCell : Bool
  isLogicStdCell : Bool
  hasMultipleOutputs : Bool
  loadCap : ℚ
  masterExists : Bool
  cell : LCell
  swappable : List LCell
  bufferDelay : LCell → ℚ → ℚ

/-- `Resizer::resizeToTargetSlew(drvr_pin)`: skip top-level ports,
dont-touch instances, missing liberty cells and non-core cells; on a
multi-output instance, mark it visited and treat a second visit as
`revisiting_inst`; with positive load, pick the target cell; when it
differs, `replaceCell` runs, and the function returns 1 only when the
rebinding succeeded and this is not a revisit. -/
def resizeToTargetSlew (e : RTSEnv) (visited : Bool) : ℕ × Bool :=
  if !e.isTopLevelPort && !e.instDontTouch && e.hasLibCell
      && e.isLogicStdCell then
    let revisiting_inst := e.hasMultipleOutputs && visited
    let visited' := visited || e.hasMultipleOutputs
    if 0 < e.loadCap then
      let target_cell := findTargetCell e.bufferDelay e.cell e.swappable
        e.loadCap revisiting_inst
      if target_cell ≠ e.cell then
        if e.masterExists && !revisiting_inst then (1, visited')
        else (0, visited')
      else (0, visited')
    else (0, visited')
  else (0, visited)

/-- Counterexample environment for C6: an eligible multi-output instance,
already visited, whose sizing search picks a different (upsized) cell and
whose replacement master exists. -/
def envC6 : RTSEnv :=
  ⟨false, false, true, true, true, 10, true, andT2, [andT5], fun _ _ => 0⟩

/-- Counterexample to C6: on a second visit to a multi-output instance,
`resizeToTargetSlew` returns 0 even though a different cell was selected
and the `replaceCell` rebinding succeeds, so "returns 1 iff a different
cell was selected and the rebinding succeeded, including on second and
later visits" fails. -/
theorem resizeToTargetSlew_revisit_returns_zero :
    ¬(((resizeToTargetSlew envC6 true).1 = 1) ↔
      (findTargetCell envC6.bufferDelay envC6.cell envC6.swappable
          envC6.loadCap (envC6.hasMultipleOutputs && true) ≠ envC6.cell
        ∧ envC6.masterExists = true)) := by
  have hsel : findTargetCell envC6.bufferDelay envC6.cell envC6.swappable
      envC6.loadCap (envC6.hasMultipleOutputs && true) = andT5 := by
    norm_num [findTargetCell, ftcStep, targetLoadDist, envC6, andT2, andT5,
      abs]
  have hres : (resizeToTargetSlew envC6 true).1 = 0 := by
    norm_num [resizeToTargetSlew, findTargetCell, ftcStep, targetLoadDist,
      envC6, andT2, andT5, abs]
  intro hiff
  have h1 : (resizeToTargetSlew envC6 true).1 = 1 := by
    refine hiff.mpr ⟨?_, rfl⟩
    rw [hsel]
    norm_num [andT2, andT5, envC6]
  rw [hres] at h1
  exact absurd h1 (by norm_num)

/-- C6 (amended): `resizeToTargetSlew` returns 1 exactly when the
instance is eligible (not a top-level port, not dont-touch, has a liberty
cell, is a core logic cell), the load capacitance is positive, the sizing
search picked a different cell, the `replaceCell` rebinding succeeded,
and this is not a second or later visit to a multi-output instance; on
revisits it returns 0 even when the cell changed. -/
theorem resizeToTargetSlew_returns_one_iff (e : RTSEnv) (visited : Bool) :
    (resizeToTargetSlew e visited).1 = 1 ↔
      ((!e.isTopLevelPort && !e.instDontTouch && e.hasLibCell
          && e.isLogicStdCell) = true
        ∧ 0 < e.loadCap
        ∧ findTargetCell e.bufferDelay e.cell e.swappable e.loadCap
            (e.hasMultipleOutputs && visited) ≠ e.cell
        ∧ e.masterExists = true
        ∧ (e.hasMultipleOutputs && visited) = false) := by
  unfold resizeToTargetSlew
  by_cases h1 : (!e.isTopLevelPort && !e.instDontTouch && e.hasLibCell
      && e.isLogicStdCell) = true
  · by_cases h2 : 0 < e.loadCap
    · by_cases h3 : findTargetCell e.bufferDelay e.cell e.swappable e.loadCap
          (e.hasMultipleOutputs && visited) = e.cell
      · simp [h1, h2, h3]
      · by_cases h4 : e.masterExists = true
            ∧ (e.hasMultipleOutputs && visited) = false
        · have h3' := h3
          rw [h4.2] at h3'
          have hc : (e.masterExists && !(e.hasMultipleOutputs && visited))
              = true := by simp [h4.1, h4.2]
          simp [h1, h2, hc, h4.1, h4.2, h3']
        · have hcp : ¬(e.masterExists = true
              ∧ (e.hasMultipleOutputs = false ∨ visited = false)) := by
            intro hp
            exact h4 ⟨hp.1, by rcases hp.2 with h | h <;> simp [h]⟩
          have hrhs : ¬(e.masterExists = true
              ∧ (e.hasMultipleOutputs = true → visited = false)) := by
            intro hp
            refine h4 ⟨hp.1, ?_⟩
            cases hmo : e.hasMultipleOutputs with
            | false => simp
            | true => simp [hp.2 hmo]
          simp [h1, h2, h3, hcp, hrhs]
    · simp [h1, h2]
  · simp [h1]

/-! ## Worst-case gate delay query

`Resizer::gateDelays(drvr_port, load_cap, dcalc_ap, delays, slews)`:
initialize the per-edge delay and slew to negative infinity, then for
every timing arc of every non-check arc set into the port, compute the
arc delay and driver slew from the input slew of the arc — the annotated slew
from `input_slew_map_` when present, else the library target slew — and
take the per-output-edge maximum.  Negative infinity is `none`; taking a
maximum against it yields the other operand (`bmax`).
-/

inductive RF
  | rise
  | fall
  deriving Repr, DecidableEq

structure TArc where
  fromPort : ℕ
  inRF : RF
  outRF : RF
  deriving Repr, DecidableEq

structure TArcSet where
  toPort : ℕ
  isCheck : Bool
  arcs : List TArc
  deriving Repr, DecidableEq

structure GateEnv where
  arcSets : List TArcSet
  annotatedSlew : ℕ → RF → Option ℚ
  tgtSlews : RF → ℚ
  dcalcDelay : TArc → ℚ → ℚ → ℚ
  dcalcSlew : TArc → ℚ → ℚ → ℚ

structure GDResult where
  riseDelay : Option ℚ
  fallDelay : Option ℚ
  riseSlew : Option ℚ
  fallSlew : Option ℚ
  deriving Repr, DecidableEq

/-- Project the per-edge delay entry of the result array. -/
def GDResult.delay : GDResult → RF → Option ℚ
  | r, RF.rise => r.riseDelay
  | r, RF.fall => r.fallDelay

/-- Project the per-edge slew entry of the result array. -/
def GDResult.slew : GDResult → RF → Option ℚ
  | r, RF.rise => r.riseSlew
  | r, RF.fall => r.fallSlew

/-- `delays[i] = max(delays[i], d)` with `-INF` as `none`. -/
def bmax : Option ℚ → ℚ → Option ℚ
  | none, x => some x
  | some y, x => some (max y x)

/-- The input-side stimulus of an arc: the annotated input slew of the
from-port when present, else the target slew for the input edge of the arc. -/
def arcInSlew (e : GateEnv) (a : TArc) : ℚ :=
  match e.annotatedSlew a.fromPort a.inRF with
  | some s => s
  | none => e.tgtSlews a.inRF

/-- The gate delay the delay calculator reports for an arc at this load. -/
def arcDelayVal (e : GateEnv) (load : ℚ) (a : TArc) : ℚ :=
  e.dcalcDelay a (arcInSlew e a) load

/-- The driver slew the delay calculator reports for an arc at this
load. -/
def arcSlewVal (e : GateEnv) (load : ℚ) (a : TArc) : ℚ :=
  e.dcalcSlew a (arcInSlew e a) load

/-- Body of the inner arc loop: fold one arc into the running per-edge
maxima. -/
def gdStep (e : GateEnv) (load : ℚ) (acc : GDResult) (a : TArc) : GDResult :=
  match a.outRF with
  | RF.rise =>
      { acc with
          riseDelay := bmax acc.riseDelay (arcDelayVal e load a)
          riseSlew := bmax acc.riseSlew (arcSlewVal e load a) }
  | RF.fall =>
      { acc with
          fallDelay := bmax acc.fallDelay (arcDelayVal e load a)
          fallSlew := bmax acc.fallSlew (arcSlewVal e load a) }

/-- The negative-infinity initialization of the result arrays. -/
def gdInit : GDResult :=
  ⟨none, none, none, none⟩

/-- `Resizer::gateDelays`: iterate the arc sets of the cell, and for each set
into the port whose role is not a timing check, fold its arcs. -/
def gateDelays (e : GateEnv) (port : ℕ) (load : ℚ) : GDResult :=
  e.arcSets.foldl
    (fun acc s =>
      if s.toPort = port && !s.isCheck then s.arcs.foldl (gdStep e load) acc
      else acc)
    gdInit

/-- The arcs the query ranges over: all arcs of every non-check arc set
into the port, in iteration order. -/
def arcsInto (e : GateEnv) (port : ℕ) : List TArc :=
  (e.arcSets.filter (fun s => s.toPort = port && !s.isCheck)).flatMap
    TArcSet.arcs

/-! ### Lemmas for the gate delay query -/

/-- The nested fold of `gateDelays` equals one flat fold over
`arcsInto`. -/
theorem gateDelays_flat (e : GateEnv) (port : ℕ) (load : ℚ)
    (sets : List TArcSet) :
    ∀ acc : GDResult,
      sets.foldl
        (fun acc s =>
          if s.toPort = port && !s.isCheck then
            s.arcs.foldl (gdStep e load) acc
          else acc) acc
        = ((sets.filter (fun s => s.toPort = port && !s.isCheck)).flatMap
            TArcSet.arcs).foldl (gdStep e load) acc := by
  induction sets with
  | nil => intro acc; rfl
  | cons s rest ih =>
    intro acc
    rw [List.foldl_cons]
    by_cases hc : (s.toPort = port && !s.isCheck) = true
    · have hf : List.filter (fun s => s.toPort = port && !s.isCheck)
          (s :: rest)
          = s :: List.filter (fun s => s.toPort = port && !s.isCheck)
            rest := by
        rw [List.filter_cons, if_pos hc]
      rw [if_pos hc, hf, List.flatMap_cons, List.foldl_append]
      exact ih _
    · have hcf : (s.toPort = port && !s.isCheck) = false := by
        cases h' : (s.toPort = port && !s.isCheck)
        · rfl
        · exact absurd h' hc
      have hf : List.filter (fun s => s.toPort = port && !s.isCheck)
          (s :: rest)
          = List.filter (fun s => s.toPort = port && !s.isCheck) rest := by
        rw [List.filter_cons, hcf]
        rfl
      rw [if_neg hc, hf]
      exact ih _

/-- How one `gdStep` moves a single delay entry. -/
theorem gdStep_delay (e : GateEnv) (load : ℚ) (acc : GDResult) (a : TArc)
    (rf : RF) :
    (gdStep e load acc a).delay rf
      = if a.outRF = rf then bmax (acc.delay rf) (arcDelayVal e load a)
        else acc.delay rf := by
  cases h : a.outRF <;> cases rf <;> simp [gdStep, GDResult.delay, h]

/-- How one `gdStep` moves a single slew entry. -/
theorem gdStep_slew (e : GateEnv) (load : ℚ) (acc : GDResult) (a : TArc)
    (rf : RF) :
    (gdStep e load acc a).slew rf
      = if a.outRF = rf then bmax (acc.slew rf) (arcSlewVal e load a)
        else acc.slew rf := by
  cases h : a.outRF <;> cases rf <;> simp [gdStep, GDResult.slew, h]

/-- A whole arc fold, projected to one delay entry, is a `bmax` fold over
the arcs with that output edge. -/
theorem gd_fold_delay (e : GateEnv) (load : ℚ) (arcs : List TArc) :
    ∀ (acc : GDResult) (rf : RF),
      (arcs.foldl (gdStep e load) acc).delay rf
        = ((arcs.filter (fun a => a.outRF = rf)).map
            (arcDelayVal e load)).foldl bmax (acc.delay rf) := by
  induction arcs with
  | nil => intro acc rf; rfl
  | cons a rest ih =>
    intro acc rf
    by_cases h : a.outRF = rf
    · simp [List.filter_cons, h, ih, gdStep_delay]
    · simp [List.filter_cons, h, ih, gdStep_delay]

/-- A whole arc fold, projected to one slew entry, is a `bmax` fold over
the arcs with that output edge. -/
theorem gd_fold_slew (e : GateEnv) (load : ℚ) (arcs : List TArc) :
    ∀ (acc : GDResult) (rf : RF),
      (arcs.foldl (gdStep e load) acc).slew rf
        = ((arcs.filter (fun a => a.outRF = rf)).map
            (arcSlewVal e load)).foldl bmax (acc.slew rf) := by
  induction arcs with
  | nil => intro acc rf; rfl
  | cons a rest ih =>
    intro acc rf
    by_cases h : a.outRF = rf
    · simp [List.filter_cons, h, ih, gdStep_slew]
    · simp [List.filter_cons, h, ih, gdStep_slew]

/-- What a `bmax` fold computes: `none` only from an empty list and a
`none` start, and a `some` result is an upper bound realized in the list
or in the start. -/
theorem foldl_bmax_spec (l : List ℚ) :
    ∀ m0 : Option ℚ,
      (l.foldl bmax m0 = none ↔ (l = [] ∧ m0 = none))
        ∧ (∀ m, l.foldl bmax m0 = some m →
            (m ∈ l ∨ m0 = some m)
              ∧ (∀ x ∈ l, x ≤ m)
              ∧ (∀ y, m0 = some y → y ≤ m)) := by
  induction l with
  | nil =>
    intro m0
    constructor
    · simp
    · intro m hm
      refine ⟨Or.inr hm, by simp, ?_⟩
      intro y hy
      rw [hy] at hm
      exact le_of_eq (Option.some.inj hm)
  | cons x rest ih =>
    intro m0
    have hx : ∃ y0, bmax m0 x = some y0 ∧ x ≤ y0
        ∧ (∀ w, m0 = some w → w ≤ y0) := by
      cases m0 with
      | none =>
        exact ⟨x, rfl, le_refl x, by intro w hw; cases hw⟩
      | some w =>
        refine ⟨max w x, rfl, le_max_right w x, ?_⟩
        intro w h
        rw [Option.some.inj h]
        exact le_max_left _ x
    obtain ⟨y0, hy0, hxy0, hw0⟩ := hx
    constructor
    · rw [List.foldl_cons]
      constructor
      · intro hnone
        have := ((ih (bmax m0 x)).1.mp hnone).2
        rw [hy0] at this
        cases this
      · intro hfalse
        cases hfalse.1
    · intro m hm
      rw [List.foldl_cons] at hm
      obtain ⟨hmem, hub, hstart⟩ := (ih (bmax m0 x)).2 m hm
      have hy0m : y0 ≤ m := hstart y0 hy0
      refine ⟨?_, ?_, ?_⟩
      · rcases hmem with h1 | h1
        · exact Or.inl (List.mem_cons_of_mem x h1)
        · cases m0 with
          | none =>
            left
            have hmx : m = x := (Option.some.inj h1).symm
            rw [hmx]
            exact List.mem_cons_self x rest
          | some w =>
            have hmx : m = max w x := by
              have := h1
              rw [show bmax (some w) x = some (max w x) from rfl] at this
              exact (Option.some.inj this).symm
            rcases max_choice w x with hc | hc
            · right
              rw [hmx, hc]
            · left
              rw [hmx, hc]
              exact List.mem_cons_self x rest
      · intro z hz
        rcases List.mem_cons.mp hz with hzx | hzr
        · subst hzx
          exact le_trans hxy0 hy0m
        · exact hub z hzr
      · intro y hy
        exact le_trans (hw0 y hy) hy0m

/-- C7: for every driver port and load, `gateDelays` returns per
rise/fall edge the maximum gate delay and maximum output slew over all
non-check timing arcs into that port, each arc stimulated by its
annotated input slew when present and the target slew otherwise
(`arcDelayVal`/`arcSlewVal` bake in that choice); an entry is the
negative-infinity sentinel (`none`) exactly when no such arc drives that
edge, and a port with no drivable arcs at all returns the all-sentinel
result — the query is total and never fails. -/
theorem gateDelays_max_over_arcs (e : GateEnv) (port : ℕ) (load : ℚ)
    (rf : RF) :
    ((gateDelays e port load).delay rf = none ↔
        (arcsInto e port).filter (fun a => a.outRF = rf) = [])
      ∧ (∀ m, (gateDelays e port load).delay rf = some m →
          m ∈ ((arcsInto e port).filter (fun a => a.outRF = rf)).map
              (arcDelayVal e load)
            ∧ ∀ x ∈ ((arcsInto e port).filter (fun a => a.outRF = rf)).map
              (arcDelayVal e load), x ≤ m)
      ∧ ((gateDelays e port load).slew rf = none ↔
        (arcsInto e port).filter (fun a => a.outRF = rf) = [])
      ∧ (∀ m, (gateDelays e port load).slew rf = some m →
          m ∈ ((arcsInto e port).filter (fun a => a.outRF = rf)).map
              (arcSlewVal e load)
            ∧ ∀ x ∈ ((arcsInto e port).filter (fun a => a.outRF = rf)).map
              (arcSlewVal e load), x ≤ m)
      ∧ (arcsInto e port = [] → gateDelays e port load = gdInit) := by
  have hinit_d : gdInit.delay rf = none := by cases rf <;> rfl
  have hinit_s : gdInit.slew rf = none := by cases rf <;> rfl
  have hflat : gateDelays e port load
      = (arcsInto e port).foldl (gdStep e load) gdInit := by
    unfold gateDelays arcsInto
    exact gateDelays_flat e port load e.arcSets gdInit
  have hdel : (gateDelays e port load).delay rf
      = (((arcsInto e port).filter (fun a => a.outRF = rf)).map
          (arcDelayVal e load)).foldl bmax none := by
    rw [hflat, gd_fold_delay, hinit_d]
  have hslew : (gateDelays e port load).slew rf
      = (((arcsInto e port).filter (fun a => a.outRF = rf)).map
          (arcSlewVal e load)).foldl bmax none := by
    rw [hflat, gd_fold_slew, hinit_s]
  refine ⟨?_, ?_, ?_, ?_, ?_⟩
  · rw [hdel]
    constructor
    · intro hn
      have := ((foldl_bmax_spec _ none).1.mp hn).1
      exact List.map_eq_nil.mp this
    · intro hf
      rw [hf]
      rfl
  · intro m hm
    rw [hdel] at hm
    obtain ⟨hmem, hub, _⟩ := (foldl_bmax_spec _ none).2 m hm
    rcases hmem with h1 | h1
    · exact ⟨h1, hub⟩
    · cases h1
  · rw [hslew]
    constructor
    · intro hn
      have := ((foldl_bmax_spec _ none).1.mp hn).1
      exact List.map_eq_nil.mp this
    · intro hf
      rw [hf]
      rfl
  · intro m hm
    rw [hslew] at hm
    obtain ⟨hmem, hub, _⟩ := (foldl_bmax_spec _ none).2 m hm
    rcases hmem with h1 | h1
    · exact ⟨h1, hub⟩
    · cases h1
  · intro h0
    rw [hflat, h0]
    rfl

/-- Concrete cell for the C7 witness: one non-check rise arc into port 0
with delay 7, one non-check fall arc into port 1, and one timing-check
arc into port 0 that the query must skip. -/
def gdEnvW : GateEnv where
  arcSets := [⟨0, false, [⟨5, RF.rise, RF.rise⟩]⟩,
              ⟨1, false, [⟨6, RF.fall, RF.fall⟩]⟩,
              ⟨0, true, [⟨7, RF.rise, RF.rise⟩]⟩]
  annotatedSlew := fun _ _ => none
  tgtSlews := fun _ => 1
  dcalcDelay := fun a _ _ => if a.fromPort = 5 then 7 else 3
  dcalcSlew := fun _ _ _ => 2

/-- Witness for C7: the rise delay reported at port 0 is realized by a
non-check arc into that port, and a port with no arcs returns the
all-sentinel result. -/
theorem gateDelays_max_over_arcs_witness :
    7 ∈ ((arcsInto gdEnvW 0).filter (fun a => a.outRF = RF.rise)).map
        (arcDelayVal gdEnvW 1)
      ∧ gateDelays gdEnvW 99 1 = gdInit :=
  ⟨((gateDelays_max_over_arcs gdEnvW 0 1 RF.rise).2.1 7 rfl).1,
   (gateDelays_max_over_arcs gdEnvW 99 1 RF.rise).2.2.2.2 rfl⟩

/-! ## Per-arc target-load bisection

`Resizer::findTargetLoad(cell, arc, in_slew, out_slew)` searches for the
load capacitance at which the gate timing model of the arc reports an output
slew equal to the target `out_slew`.  `gateSlewDiff` is the objective
`model slew at load - out_slew`; the slew-at-load map of the model is the
oracle `g : ℚ → ℚ` here, so the objective is `g load - target`.  The
search keeps a bracket `[c1, c2]` starting at `[0, 1pF]`: while the
objective at `c2` is negative it doubles `c2`, otherwise it bisects, and
it stops as soon as the bracket width is at most 1% of the larger
endpoint, returning `c1`.  The C++ loop has no fuel; the model makes the
(possibly non-terminating) loop total with a fuel argument and `none` for
running out of fuel, and every property below is about runs that return.
-/

/-- The 1 pF upper bound the bracket starts with (farads). -/
def onePF : ℚ := 1 / 10 ^ 12

/-- The bisection loop of `findTargetLoad`.  Exits with the current
bracket when its width is within tolerance (`tol = .01`); otherwise
doubles the upper bound while the objective there is negative, else
bisects.  The C++ caches the objective value at `c2` in `diff2`; the
cache always equals `g c2 - target`, which the model recomputes. -/
def ftlLoop (g : ℚ → ℚ) (target : ℚ) : ℕ → ℚ → ℚ → Option (ℚ × ℚ)
  | 0, _, _ => none
  | fuel + 1, c1, c2 =>
    if |c1 - c2| ≤ max c1 c2 * (1 / 100) then some (c1, c2)
    else if g c2 - target < 0 then ftlLoop g target fuel c2 (2 * c2)
    else if g ((c1 + c2) / 2) - target < 0 then
      ftlLoop g target fuel ((c1 + c2) / 2) c2
    else ftlLoop g target fuel c1 ((c1 + c2) / 2)

/-- `Resizer::findTargetLoad`: without a gate timing model return 0; if
the zero-load slew already exceeds the target return 0; otherwise run the
bracket loop from `[0, 1pF]` and return its lower endpoint. -/
def findTargetLoad (hasModel : Bool) (g : ℚ → ℚ) (target : ℚ)
    (fuel : ℕ) : Option ℚ :=
  if hasModel then
    if 0 < g 0 - target then some 0
    else (ftlLoop g target fuel 0 onePF).map Prod.fst
  else some 0

/-- Invariant of the bracket loop: the bracket is ordered and nonnegative,
the objective at the lower end is nonpositive, and either the objective at
the upper end is already nonnegative (bisection phase) or the state is a
doubling state `(c, 2c)` with `c > 0`, or still the initial state. -/
def ftlInv (g : ℚ → ℚ) (t c1 c2 : ℚ) : Prop :=
  0 ≤ c1 ∧ c1 ≤ c2 ∧ g c1 - t ≤ 0
    ∧ (0 ≤ g c2 - t ∨ (0 < c1 ∧ c2 = 2 * c1) ∨ (c1 = 0 ∧ c2 = onePF))

/-- Runs of the bracket loop that return do so at a bracket that straddles
the target slew and has width within 1% of the larger endpoint. -/
theorem ftlLoop_spec (g : ℚ → ℚ) (t : ℚ) :
    ∀ (fuel : ℕ) (c1 c2 d1 d2 : ℚ), ftlInv g t c1 c2 →
      ftlLoop g t fuel c1 c2 = some (d1, d2) →
      d1 ≤ d2 ∧ g d1 - t ≤ 0 ∧ 0 ≤ g d2 - t
        ∧ |d1 - d2| ≤ max d1 d2 * (1 / 100) := by
  intro fuel
  induction fuel with
  | zero =>
    intro c1 c2 d1 d2 _ h
    cases h
  | succ n ih =>
    intro c1 c2 d1 d2 hinv hrun
    obtain ⟨h0, h12, hg1, hdisj⟩ := hinv
    rw [ftlLoop] at hrun
    by_cases hexit : |c1 - c2| ≤ max c1 c2 * (1 / 100)
    · rw [if_pos hexit] at hrun
      injection hrun with hpair
      injection hpair with hd1 hd2
      subst hd1
      subst hd2
      have hup : 0 ≤ g c2 - t := by
        rcases hdisj with hA | hB | hC
        · exact hA
        · exfalso
          obtain ⟨hpos, h2c⟩ := hB
          rw [h2c] at hexit
          have habs : |c1 - 2 * c1| = c1 := by
            rw [abs_of_nonpos (by linarith)]
            ring
          have hmax : max c1 (2 * c1) = 2 * c1 := max_eq_right (by linarith)
          rw [habs, hmax] at hexit
          linarith
        · exfalso
          obtain ⟨h1z, h2p⟩ := hC
          rw [h1z, h2p] at hexit
          have hone : |(0 : ℚ) - onePF| = onePF := by
            rw [abs_of_nonpos (by norm_num [onePF])]
            ring
          have hmax0 : max (0 : ℚ) onePF = onePF :=
            max_eq_right (by norm_num [onePF])
          rw [hone, hmax0] at hexit
          norm_num [onePF] at hexit
      exact ⟨h12, hg1, hup, hexit⟩
    · rw [if_neg hexit] at hrun
      by_cases hdbl : g c2 - t < 0
      · rw [if_pos hdbl] at hrun
        have hc2pos : 0 < c2 := by
          rcases hdisj with hA | hB | hC
          · linarith
          · obtain ⟨hp, h2c⟩ := hB
            rw [h2c]
            linarith
          · rw [hC.2]
            norm_num [onePF]
        exact ih c2 (2 * c2) d1 d2
          ⟨le_of_lt hc2pos, by linarith, le_of_lt hdbl,
           Or.inr (Or.inl ⟨hc2pos, rfl⟩)⟩ hrun
      · rw [if_neg hdbl] at hrun
        have hgc2 : 0 ≤ g c2 - t := not_lt.mp hdbl
        by_cases hbi : g ((c1 + c2) / 2) - t < 0
        · rw [if_pos hbi] at hrun
          exact ih ((c1 + c2) / 2) c2 d1 d2
            ⟨by linarith, by linarith, le_of_lt hbi, Or.inl hgc2⟩ hrun
        · rw [if_neg hbi] at hrun
          exact ih c1 ((c1 + c2) / 2) d1 d2
            ⟨h0, by linarith, hg1, Or.inl (not_lt.mp hbi)⟩ hrun

/-- The loop returns the current bracket as soon as the width is within
1% of the larger endpoint. -/
theorem ftlLoop_exit (g : ℚ → ℚ) (t : ℚ) (n : ℕ) (c1 c2 : ℚ)
    (h : |c1 - c2| ≤ max c1 c2 * (1 / 100)) :
    ftlLoop g t (n + 1) c1 c2 = some (c1, c2) := by
  rw [ftlLoop, if_pos h]

/-- A bisection step that moves the lower endpoint to the midpoint. -/
theorem ftlLoop_bisect_left (g : ℚ → ℚ) (t : ℚ) (n : ℕ) (c1 c2 : ℚ)
    (h1 : ¬ |c1 - c2| ≤ max c1 c2 * (1 / 100))
    (h2 : ¬ g c2 - t < 0) (h3 : g ((c1 + c2) / 2) - t < 0) :
    ftlLoop g t (n + 1) c1 c2 = ftlLoop g t n ((c1 + c2) / 2) c2 := by
  rw [ftlLoop, if_neg h1, if_neg h2, if_pos h3]

/-- C4: with a gate timing model present, the target-load search starts
from the bracket `[0, 1pF]`; if the modeled slew at zero load already
exceeds the target it returns 0; otherwise any terminating run of the
doubling/bisection loop ends at a bracket `[d1, d2]` that straddles the
target slew (`g d1 ≤ target ≤ g d2`, which is what doubling until the
slew reaches the target and then bisecting maintains), stops exactly when
the width `|d1 - d2|` is at most 1% of the larger endpoint — the loop
also returns immediately whenever that condition holds — and the function
returns the lower endpoint `d1`. -/
theorem findTargetLoad_bisection (g : ℚ → ℚ) (t : ℚ) (fuel : ℕ) :
    (0 < g 0 - t → findTargetLoad true g t fuel = some 0)
      ∧ (g 0 - t ≤ 0 → ∀ d1 d2, ftlLoop g t fuel 0 onePF = some (d1, d2) →
          findTargetLoad true g t fuel = some d1
            ∧ d1 ≤ d2 ∧ g d1 ≤ t ∧ t ≤ g d2
            ∧ |d1 - d2| ≤ max d1 d2 * (1 / 100))
      ∧ (∀ (n : ℕ) (c1 c2 : ℚ), |c1 - c2| ≤ max c1 c2 * (1 / 100) →
          ftlLoop g t (n + 1) c1 c2 = some (c1, c2)) := by
  refine ⟨?_, ?_, ?_⟩
  · intro h
    simp [findTargetLoad, h]
  · intro h0 d1 d2 hrun
    have hinv : ftlInv g t 0 onePF :=
      ⟨le_refl 0, by norm_num [onePF], h0, Or.inr (Or.inr ⟨rfl, rfl⟩)⟩
    have hs := ftlLoop_spec g t fuel 0 onePF d1 d2 hinv hrun
    refine ⟨?_, hs.1, by linarith [hs.2.1], by linarith [hs.2.2.1], hs.2.2.2⟩
    rw [findTargetLoad, if_pos rfl, if_neg (not_lt.mpr h0), hrun]
    rfl
  · intro n c1 c2 h
    exact ftlLoop_exit g t n c1 c2 h

/-- A fully computed run of the bracket loop for the identity slew model
and target `onePF`: seven bisections shrink `[0, 1pF]` to
`[127/128 pF, 1 pF]`, whose width is within 1% of the upper endpoint. -/
theorem ftlLoopIdRun :
    ftlLoop (fun x => x) onePF 8 0 onePF
      = some (127 / (128 * 10 ^ 12), 1 / 10 ^ 12) := by
  rw [show (8 : ℕ) = 7 + 1 from rfl, ftlLoop_bisect_left _ _ _ _ _
    (by norm_num [onePF, abs_of_nonpos, max_def]) (by norm_num [onePF])
    (by norm_num [onePF])]
  norm_num [onePF]
  rw [show (7 : ℕ) = 6 + 1 from rfl, ftlLoop_bisect_left _ _ _ _ _
    (by norm_num [abs_of_nonpos, max_def]) (by norm_num) (by norm_num)]
  norm_num
  rw [show (6 : ℕ) = 5 + 1 from rfl, ftlLoop_bisect_left _ _ _ _ _
    (by norm_num [abs_of_nonpos, max_def]) (by norm_num) (by norm_num)]
  norm_num
  rw [show (5 : ℕ) = 4 + 1 from rfl, ftlLoop_bisect_left _ _ _ _ _
    (by norm_num [abs_of_nonpos, max_def]) (by norm_num) (by norm_num)]
  norm_num
  rw [show (4 : ℕ) = 3 + 1 from rfl, ftlLoop_bisect_left _ _ _ _ _
    (by norm_num [abs_of_nonpos, max_def]) (by norm_num) (by norm_num)]
  norm_num
  rw [show (3 : ℕ) = 2 + 1 from rfl, ftlLoop_bisect_left _ _ _ _ _
    (by norm_num [abs_of_nonpos, max_def]) (by norm_num) (by norm_num)]
  norm_num
  rw [show (2 : ℕ) = 1 + 1 from rfl, ftlLoop_bisect_left _ _ _ _ _
    (by norm_num [abs_of_nonpos, max_def]) (by norm_num) (by norm_num)]
  norm_num
  rw [show (1 : ℕ) = 0 + 1 from rfl, ftlLoop_exit _ _ _ _ _
    (by norm_num [abs_of_nonpos, max_def])]

/-- Witness for C4: for the identity slew model with target 1pF, the
search returns the lower endpoint 127/128 pF of the final bracket, and
the modeled slew there does not exceed the target. -/
theorem findTargetLoad_bisection_witness :
    findTargetLoad true (fun x => x) onePF 8
        = some (127 / (128 * 10 ^ 12))
      ∧ ((fun x => x) (127 / (128 * 10 ^ 12) : ℚ) ≤ onePF) :=
  ⟨((findTargetLoad_bisection (fun x => x) onePF 8).2.1
      (by norm_num [onePF]) (127 / (128 * 10 ^ 12)) (1 / 10 ^ 12)
      ftlLoopIdRun).1,
   ((findTargetLoad_bisection (fun x => x) onePF 8).2.1
      (by norm_num [onePF]) (127 / (128 * 10 ^ 12)) (1 / 10 ^ 12)
      ftlLoopIdRun).2.2.1⟩
